import Mathlib

/-!
Verification of the encrypted network filesystem core (netfs).

Shallow embedding of:
  * the crypto envelope (`CryptoHelper.Encrypt` / `CryptoHelper.Decrypt`),
  * the metadata `edge` row type,
  * the FUSE node layer prefixes (`Node.Lookup`, `Node.Rmdir`, node
    construction in `Node.Lookup` / `Node.Create` / `Node.Mkdir`),
  * the file handle layer (`File.Write`),
  * `Node.Statfs`.

Bytes are modelled as `List Nat`, Go byte strings as byte lists; machine
integers in the claims never approach overflow, so `Nat` is used directly.
-/

/-- Inode numbers (`meta.Ino`, a `uint64` in the source). -/
abbrev Ino := Nat

/-- The errno values the node layer returns directly (from `syscall`). -/
inductive Errno where
  | ENAMETOOLONG
  | ENOENT
  | EPERM
  | EINVAL
  | ENOTEMPTY
  deriving DecidableEq, Repr

/-! ## Crypto envelope (`CryptoHelper` in the crypto package)

`aes.NewCipher` succeeds exactly on 16-, 24- or 32-byte keys; `cipher.NewGCM`
over an AES block never fails and has a 12-byte nonce size.  The AEAD produced
by `cipher.NewGCM` is modelled as an abstract `Seal`/`Open` pair: theorems
that need its correctness (`Open` inverts `Seal`) or its ciphertext expansion
(16-byte GCM tag) take those as explicit hypotheses, discharged on a concrete
instance in the witnesses. -/

/-- Success condition of `aes.NewCipher`: the key has a valid AES length. -/
def aesKeyLenOk (key : List Nat) : Prop :=
  key.length = 16 ∨ key.length = 24 ∨ key.length = 32

instance (key : List Nat) : Decidable (aesKeyLenOk key) := by
  unfold aesKeyLenOk; infer_instance

/-- Abstract model of the `cipher.AEAD` value returned by `cipher.NewGCM`:
a nonce size, `Seal` (append-to-dst is made explicit at call sites) and
`Open` (returning `none` exactly when authentication fails). -/
structure AEAD where
  nonceSize : Nat
  sealOp : List Nat → List Nat → List Nat
  opn : List Nat → List Nat → Option (List Nat)

/-- Result of `CryptoHelper.Encrypt`: a ciphertext, an error return, or a
crash (`Encrypt` calls `panic` when `aes.NewCipher` fails).  The `err`
constructor covers the two `return nil, err` paths (`cipher.NewGCM`,
`io.ReadFull` on the random source), which cannot occur in this model
because GCM construction over a valid AES block never fails and nonce
sampling is externalised into a parameter. -/
inductive EncResult where
  | ok (c : List Nat)
  | err
  | crashed
  deriving DecidableEq, Repr

/-- Result of `CryptoHelper.Decrypt`. -/
inductive DecResult where
  | ok (p : List Nat)
  | err
  deriving DecidableEq, Repr

/-- `CryptoHelper.Encrypt key plaintext`, with the freshly sampled nonce made
an explicit parameter (the source fills a `NonceSize()`-byte buffer from
`crypto/rand`).  Empty key: the plaintext is returned unchanged.  Invalid
key length: `aes.NewCipher` errors and the source calls `panic`.  Otherwise
`aesgcm.Seal(nonce, nonce, plaintext, nil)` prepends the nonce to the
sealed bytes. -/
def Encrypt (g : AEAD) (key plaintext nonce : List Nat) : EncResult :=
  if key.length = 0 then .ok plaintext
  else if aesKeyLenOk key then .ok (nonce ++ g.sealOp nonce plaintext)
  else .crashed

/-- `CryptoHelper.Decrypt key ciphertext`.  Empty key: ciphertext returned
unchanged.  Invalid key length: `aes.NewCipher`'s error is returned.  When
`len(ciphertext) < nonceSize` the source executes `return nil, err` where
`err` is the (nil) error left over from `cipher.NewGCM`, i.e. it returns a
nil plaintext with **no** error; this is modelled as `.ok []`.  Otherwise
the nonce prefix is split off and `aesgcm.Open` decides the result. -/
def Decrypt (g : AEAD) (key ciphertext : List Nat) : DecResult :=
  if key.length = 0 then .ok ciphertext
  else if aesKeyLenOk key then
    if ciphertext.length < g.nonceSize then .ok []
    else
      match g.opn (ciphertext.take g.nonceSize) (ciphertext.drop g.nonceSize) with
      | some p => .ok p
      | none => .err
  else .err

/-- A concrete AEAD instance used to instantiate witnesses: 12-byte nonces,
a 16-byte all-zero tag appended by `sealOp`, checked and stripped by `opn`. -/
def tagAEAD : AEAD where
  nonceSize := 12
  sealOp := fun _ p => p ++ List.replicate 16 0
  opn := fun _ c =>
    if 16 ≤ c.length ∧ c.drop (c.length - 16) = List.replicate 16 0 then
      some (c.take (c.length - 16))
    else none

lemma tagAEAD_seal_len (n p : List Nat) :
    (tagAEAD.sealOp n p).length = p.length + 16 := by
  simp [tagAEAD]

lemma tagAEAD_opn_seal (n p : List Nat) :
    tagAEAD.opn n (tagAEAD.sealOp n p) = some p := by
  simp [tagAEAD]

/-! ## Metadata `edge` row (meta package)

The `edge` struct persisted by the metadata store, field for field:
`Id int64`, `Parent Ino`, `Name []byte` (varbinary 255), `Inode Ino`,
`Type uint8`.  (`type` is a reserved word in Lean, hence `typ`.) -/

/-- The `edge` table row exactly as declared in the source. -/
structure Edge where
  id : Int
  parent : Ino
  name : List Nat
  inode : Ino
  typ : Nat
  deriving DecidableEq, Repr

/-- Modelled from the spec: `Mknod(parent, type, mode, user, &ino,
encrypted_name, wrapped_key, &attr)` inserts the edge
`{parent, encrypted_name, ino, type, wrapped_key}` (the `Mknod` body is not
under src; only the `edge` row type is).  The inserted row is an `Edge`
value, the row type the source declares, so the `wrappedKey` argument has
no column to land in and is dropped. -/
def mknodEdge (id : Int) (parent : Ino) (encName : List Nat) (inode : Ino)
    (typ : Nat) (wrappedKey : List Nat) : Edge :=
  { id := id, parent := parent, name := encName, inode := inode, typ := typ }

/-! ## File handle layer (`File.Write` in file.go)

`File.Write(ctx, data, off)` first calls `meta.Write(ctx, ino, data, off)`
and then `obj.Put(ino, nil, data)`: the bytes handed to the object store's
put are exactly the `data` received from the kernel. -/

/-- Modelled from the spec: the metadata `Write(ino, bytes, offset)` length
update, `length = max(length, offset + len(bytes))` (the `dbMeta` write body
is not under src).  The mtime update is irrelevant to the claims. -/
def metaWrite (length : Nat) (data : List Nat) (off : Nat) : Nat :=
  max length (off + data.length)

/-- The two externally visible effects of one `File.Write` call: the new
metadata length and the payload handed to `obj.Put`. -/
structure WriteEffect where
  metaLen : Nat
  putPayload : List Nat
  deriving DecidableEq, Repr

/-- `File.Write` on a handle whose file currently has metadata length
`len0`: updates the length through `meta.Write`, then puts `data` itself to
the object store. -/
def fileWrite (len0 : Nat) (data : List Nat) (off : Nat) : WriteEffect :=
  { metaLen := metaWrite len0 data off, putPayload := data }

/-- One step of a write sequence on `(metadata length, stored blob)`:
`obj.Put` replaces the whole blob with the data of this write. -/
def applyWrite (st : Nat × Option (List Nat)) (w : List Nat × Nat) :
    Nat × Option (List Nat) :=
  ((fileWrite st.1 w.1 w.2).metaLen, some (fileWrite st.1 w.1 w.2).putPayload)

/-- A sequence of `File.Write` calls `(data, offset)` applied in order. -/
def applyWrites (init : Nat × Option (List Nat))
    (ws : List (List Nat × Nat)) : Nat × Option (List Nat) :=
  ws.foldl applyWrite init

/-! ## `Node.Statfs` (node.go) -/

/-- `maxSize` constant from node.go (its comment reads `// 1TB`). -/
def maxSize : Nat := 1125899906842624

/-- `fileBlockSize = 1 << 12` from node.go. -/
def fileBlockSize : Nat := 1 <<< 12

/-- The fields of `fuse.StatfsOut` that `Node.Statfs` fills in. -/
structure StatfsOut where
  blocks : Nat
  bfree : Nat
  bavail : Nat
  files : Nat
  ffree : Nat
  bsize : Nat
  nameLen : Nat
  frsize : Nat
  deriving DecidableEq, Repr

/-- `Node.Statfs`, which ignores its inputs and fills the output with
constants. -/
def nodeStatfs : StatfsOut :=
  { blocks := maxSize / fileBlockSize
    bfree := (maxSize - 1000000000) / fileBlockSize
    bavail := (maxSize - 1000000000) / fileBlockSize
    files := 1000000000
    ffree := 1000000000
    bsize := fileBlockSize
    nameLen := 255
    frsize := fileBlockSize }

/-! ## Node layer (node.go)

Names are Go strings, i.e. byte strings, modelled as `List Nat`; the
in-memory name cache `inoMap map[string]Ino` is modelled as an association
list looked up by `findIno` (first binding wins, matching a Go map in which
a later insert shadows the earlier binding). -/

/-- Modelled from the spec: `meta.MaxName`, the maximum name length in
bytes; the constant lives in the meta package, which is not under src.
Spec: "max name length: 255 bytes encoded, checked before encryption". -/
def maxName : Nat := 255

/-- The byte string of the Go literal `"shared"`. -/
def sharedName : List Nat := [115, 104, 97, 114, 101, 100]

/-- The byte string of the Go literal `"."`. -/
def dotName : List Nat := [46]

/-- The byte string of the Go literal `".."`. -/
def dotdotName : List Nat := [46, 46]

/-- Lookup in the `inoMap` name cache (`ino, ok := n.inoMap[name]`). -/
def findIno (m : List (List Nat × Ino)) (name : List Nat) : Option Ino :=
  match m with
  | [] => none
  | (k, v) :: rest => if k = name then some v else findIno rest name

/-- Go map assignment `m[name] = ino`, observed through `findIno`. -/
def mapInsert (m : List (List Nat × Ino)) (name : List Nat) (ino : Ino) :
    List (List Nat × Ino) :=
  (name, ino) :: m

/-- Outcome of the pure prefix of a node operation: either an early errno
return that happens before any metadata store call, or the operation
proceeds into its first metadata call with the arguments shown. -/
inductive NodeOutcome where
  | early (e : Errno)
  | metaCall (parent : Ino) (ino : Ino)
  deriving DecidableEq, Repr

/-- The prefix of `Node.Rmdir(ctx, name)` up to the `meta.Rmdir` call: the
length check, then the literal-name checks for `"shared"`, `"."`, `".."`,
then `ino := n.inoMap[name]` (zero value when absent) and the call
`meta.Rmdir(ctx, parent, ino)`. -/
def nodeRmdir (inoMap : List (List Nat × Ino)) (parent : Ino)
    (name : List Nat) : NodeOutcome :=
  if name.length > maxName then .early .ENAMETOOLONG
  else if name = sharedName then .early .EPERM
  else if name = dotName then .early .EINVAL
  else if name = dotdotName then .early .ENOTEMPTY
  else .metaCall parent ((findIno inoMap name).getD 0)

/-- The prefix of `Node.Lookup(ctx, name, out)` up to the first metadata
call (`GetKey`/`GetSharedKey`): the length check, then the cache probe
`ino, ok := n.inoMap[name]` returning `ENOENT` on a miss. -/
def nodeLookupCheck (inoMap : List (List Nat × Ino)) (parent : Ino)
    (name : List Nat) : NodeOutcome :=
  if name.length > maxName then .early .ENAMETOOLONG
  else
    match findIno inoMap name with
    | none => .early .ENOENT
    | some ino => .metaCall parent ino

/-! ## Name-cache sharing (node construction in Lookup / Create / Mkdir)

Go maps are reference values: copying `inoMap: n.inoMap` into a child node
aliases the parent's map, while `make(map[string]Ino)` allocates a fresh
one.  The aliasing is made explicit through a heap of caches indexed by a
cache id; each in-memory node carries the id of the cache it references. -/

/-- The part of an in-memory `Node` relevant to cache aliasing: which heap
cell its `inoMap` field points at. -/
structure NodeRef where
  cacheId : Nat
  deriving DecidableEq, Repr

/-- The heap of live `map[string]Ino` objects. -/
structure CacheHeap where
  caches : List (List (List Nat × Ino))
  deriving DecidableEq, Repr

/-- The map object a node's `inoMap` field refers to. -/
def cacheAt (h : CacheHeap) (i : Nat) : List (List Nat × Ino) :=
  h.caches.getD i []

/-- Child node built by `Node.Lookup`: `inoMap: n.inoMap` aliases the
parent's map object. -/
def lookupChildNode (parent : NodeRef) : NodeRef :=
  { cacheId := parent.cacheId }

/-- Child node built by `Node.Create`: `inoMap: n.inoMap` aliases the
parent's map object. -/
def createChildNode (parent : NodeRef) : NodeRef :=
  { cacheId := parent.cacheId }

/-- Child node built by `Node.Mkdir`: `inoMap: make(map[string]Ino)`
allocates a fresh empty map object. -/
def mkdirChildNode (h : CacheHeap) : NodeRef × CacheHeap :=
  ({ cacheId := h.caches.length }, { caches := h.caches ++ [[]] })

/-- The cache insertions performed by `Node.Readdir` on node `n`: for every
decrypted entry other than `"."` and `".."`, `n.inoMap[name] = e.Inode`,
mutating the map object `n.cacheId` points at. -/
def readdirInsert (h : CacheHeap) (n : NodeRef)
    (entries : List (List Nat × Ino)) : CacheHeap :=
  { caches := h.caches.set n.cacheId
      (entries.foldl
        (fun m e =>
          if e.1 = dotName ∨ e.1 = dotdotName then m else mapInsert m e.1 e.2)
        (cacheAt h n.cacheId)) }

/-! ## Helper lemmas -/

lemma list_getD_set_self {α : Type} (l : List α) (i : Nat) (a d : α)
    (hi : i < l.length) : (l.set i a).getD i d = a := by
  induction l generalizing i with
  | nil => simp at hi
  | cons x xs ih =>
    cases i with
    | zero => simp [List.getD]
    | succ j =>
      simp only [List.set, List.getD, List.get?]
      have hj : j < xs.length := by simpa using hi
      simpa [List.getD] using ih j hj

lemma applyWrites_fst (init : Nat × Option (List Nat))
    (ws : List (List Nat × Nat)) :
    (applyWrites init ws).1
      = ws.foldl (fun a e => max a (e.2 + e.1.length)) init.1 := by
  induction ws generalizing init with
  | nil => rfl
  | cons e es ih =>
    simp only [applyWrites, List.foldl_cons]
    exact ih (applyWrite init e)

lemma applyWrites_snd (init : Nat × Option (List Nat))
    (w : List Nat × Nat) (ws : List (List Nat × Nat)) :
    (applyWrites init (w :: ws)).2
      = some ((w :: ws).getLast (List.cons_ne_nil w ws)).1 := by
  induction ws generalizing init w with
  | nil => rfl
  | cons e es ih =>
    simp only [applyWrites, List.foldl_cons] at ih ⊢
    rw [List.getLast_cons (List.cons_ne_nil e es)]
    exact ih (applyWrite init w) e

/-! ## Claims -/

/-- C1: the claim states that `File.Write` hands the object store an
already-encrypted payload, never the kernel's plaintext.  In the code,
`obj.Put(ino, nil, data)` receives exactly the `data` argument of `Write`;
since a symmetric encryption under a 32-byte key always prepends a 12-byte
nonce and appends a 16-byte tag, the stored payload cannot be the
encryption of `data` under the file key: the store receives the plaintext
itself. -/
theorem write_puts_kernel_plaintext (g : AEAD) (len0 off : Nat)
    (data key nonce : List Nat) (hkey : key.length = 32)
    (hnonce : nonce.length = 12)
    (hseal : ∀ n q, (g.sealOp n q).length = q.length + 16) :
    (fileWrite len0 data off).putPayload = data ∧
      Encrypt g key data nonce ≠ .ok ((fileWrite len0 data off).putPayload) := by
  constructor
  · rfl
  · have hk0 : ¬ key.length = 0 := by simp [hkey]
    have hkok : aesKeyLenOk key := Or.inr (Or.inr hkey)
    simp only [Encrypt, fileWrite, if_neg hk0, if_pos hkok, ne_eq,
      EncResult.ok.injEq]
    intro hcontra
    have hlen := congrArg List.length hcontra
    simp [hseal, hnonce] at hlen
    omega

/-- C1 witness: a concrete `Write("HELLO", 0)` hands `"HELLO"` itself to the
object store, and no encryption of it under the file key equals it. -/
theorem write_puts_kernel_plaintext_witness :
    (fileWrite 0 [72, 69, 76, 76, 79] 0).putPayload = [72, 69, 76, 76, 79] ∧
      Encrypt tagAEAD (List.replicate 32 0) [72, 69, 76, 76, 79]
          (List.replicate 12 0)
        ≠ .ok ((fileWrite 0 [72, 69, 76, 76, 79] 0).putPayload) :=
  write_puts_kernel_plaintext tagAEAD 0 0 [72, 69, 76, 76, 79]
    (List.replicate 32 0) (List.replicate 12 0) (by decide) (by decide)
    tagAEAD_seal_len

/-- C2: the claim states every persisted edge carries a wrapped-key column
that `Mknod` fills and `GetKey`/`GetSharedKey` later fetch.  The `edge` row
type declared in the source has fields `(id, parent, name, inode, type)`
only, so the inserted row retains no information about the wrapped key: no
function of the stored edge can recover it. -/
theorem edge_cannot_store_wrapped_key :
    ¬ ∃ f : Edge → List Nat,
        ∀ p n i t k, f (mknodEdge 0 p n i t k) = k := by
  rintro ⟨f, hf⟩
  have h1 := hf 1 [] 1 0 [0]
  have h2 := hf 1 [] 1 0 [1]
  have heq : mknodEdge 0 1 [] 1 0 [0] = mknodEdge 0 1 [] 1 0 [1] := rfl
  rw [heq] at h1
  rw [h1] at h2
  exact absurd h2 (by decide)

/-- C3: the claim states `Decrypt` fails (returns an error) on every
ciphertext shorter than 12 bytes.  In the source the short-ciphertext
branch executes `return nil, err` where `err` is still `nil` from the
successful `cipher.NewGCM` call, so the call succeeds with a nil plaintext
instead of failing: with a 32-byte key and the 3-byte ciphertext
`[1, 2, 3]` the result is `ok []`, not an error. -/
theorem decrypt_short_ciphertext_no_error :
    Decrypt tagAEAD (List.replicate 32 0) [1, 2, 3] = .ok [] := by decide

/-- C4 counterexample: writing `"HELLO"` at offset 0 and then `"X"` at
offset 0 leaves metadata length 5 while the most recently stored blob is
`"X"` of size 1, refuting "length equals the size of the most recently
stored blob after any sequence of writes". -/
theorem length_blob_mismatch :
    applyWrites (0, none) [([72, 69, 76, 76, 79], 0), ([88], 0)]
        = (5, some [88]) ∧
      (5 : Nat) ≠ ([88] : List Nat).length := by decide

/-- C4 amended: after any sequence of writes the metadata length equals the
maximum of `offset + len(bytes)` over the sequence (and the initial
length), while the object store holds exactly the last write's data; the
recorded length therefore need not equal the size of the most recent
blob. -/
theorem writes_length_running_max_blob_last (init : Nat × Option (List Nat))
    (w : List Nat × Nat) (ws : List (List Nat × Nat)) :
    (applyWrites init ws).1
        = ws.foldl (fun a e => max a (e.2 + e.1.length)) init.1 ∧
      (applyWrites init (w :: ws)).2
        = some ((w :: ws).getLast (List.cons_ne_nil w ws)).1 :=
  ⟨applyWrites_fst init ws, applyWrites_snd init w ws⟩

/-- C5: the claim states `Statfs` reports 1 TiB of capacity in 4096-byte
blocks with 255-byte names.  The block size and name-length fields match,
but `maxSize = 1125899906842624 = 2^50` bytes (1 PiB), despite the source
comment `// 1TB`, so the reported block total is `2^50 / 4096 = 2^38`, not
`1 TiB / 4096 = 2^28`. -/
theorem statfs_reports_one_pib_not_one_tib :
    nodeStatfs.bsize = 4096 ∧ nodeStatfs.nameLen = 255 ∧
      maxSize = 2 ^ 50 ∧ nodeStatfs.blocks = 2 ^ 50 / 4096 ∧
      nodeStatfs.blocks ≠ 1099511627776 / 4096 := by decide

/-- C6 counterexample: `Encrypt` with a non-empty 5-byte key (not a valid
AES key length) crashes — the source calls `panic` on the `aes.NewCipher`
error — instead of returning an error result to the caller. -/
theorem encrypt_invalid_key_crashes_at_five_byte_key :
    Encrypt tagAEAD (List.replicate 5 0) [1] (List.replicate 12 0)
      = .crashed := by decide

/-- C6 amended: for every non-empty key whose length is not 16, 24 or 32
bytes, `Encrypt` crashes (panics) rather than returning an error result,
for every plaintext and nonce. -/
theorem encrypt_invalid_key_crashes (g : AEAD) (key p nonce : List Nat)
    (h0 : key.length ≠ 0) (h1 : ¬ aesKeyLenOk key) :
    Encrypt g key p nonce = .crashed := by
  simp [Encrypt, h0, h1]

/-- C6 amended witness at a concrete 5-byte key. -/
theorem encrypt_invalid_key_crashes_witness :
    Encrypt tagAEAD [0, 0, 0, 0, 0] [1] [] = .crashed :=
  encrypt_invalid_key_crashes tagAEAD [0, 0, 0, 0, 0] [1] []
    (by decide) (by decide)

/-- C7: for every 32-byte key and every plaintext, decrypting the output of
`Encrypt` returns the plaintext, whatever 12-byte nonce was sampled —
provided the underlying GCM `Open` inverts `Seal` (the contract of
`cipher.AEAD`). -/
theorem encrypt_decrypt_roundtrip (g : AEAD) (key p nonce c : List Nat)
    (hkey : key.length = 32) (hnonce : nonce.length = g.nonceSize)
    (hopen : ∀ n q, g.opn n (g.sealOp n q) = some q)
    (henc : Encrypt g key p nonce = .ok c) :
    Decrypt g key c = .ok p := by
  have hk0 : ¬ key.length = 0 := by simp [hkey]
  have hkok : aesKeyLenOk key := Or.inr (Or.inr hkey)
  simp only [Encrypt, if_neg hk0, if_pos hkok, EncResult.ok.injEq] at henc
  subst henc
  have hlen : ¬ (nonce ++ g.sealOp nonce p).length < g.nonceSize := by
    simp [hnonce]
  have htake : (nonce ++ g.sealOp nonce p).take g.nonceSize = nonce := by
    rw [← hnonce, List.take_left]
  have hdrop : (nonce ++ g.sealOp nonce p).drop g.nonceSize
      = g.sealOp nonce p := by
    rw [← hnonce, List.drop_left]
  simp only [Decrypt, if_neg hk0, if_pos hkok, if_neg hlen, htake, hdrop,
    hopen]

set_option maxRecDepth 4096 in
/-- C7 witness: a concrete round trip through the concrete AEAD instance. -/
theorem encrypt_decrypt_roundtrip_witness :
    Decrypt tagAEAD (List.replicate 32 0)
        (List.replicate 12 0
          ++ tagAEAD.sealOp (List.replicate 12 0) [7, 7])
      = .ok [7, 7] :=
  encrypt_decrypt_roundtrip tagAEAD (List.replicate 32 0) [7, 7]
    (List.replicate 12 0)
    (List.replicate 12 0 ++ tagAEAD.sealOp (List.replicate 12 0) [7, 7])
    (by decide) (by decide) tagAEAD_opn_seal (by decide)

/-- C8: `Node.Rmdir` returns `EPERM` for the literal name `"shared"`,
`EINVAL` for `"."` and `ENOTEMPTY` for `".."`, in every cache state and for
every parent inode, as an early return before any metadata store call. -/
theorem rmdir_rejects_reserved_names (m : List (List Nat × Ino))
    (parent : Ino) :
    nodeRmdir m parent sharedName = .early .EPERM ∧
      nodeRmdir m parent dotName = .early .EINVAL ∧
      nodeRmdir m parent dotdotName = .early .ENOTEMPTY := by
  refine ⟨?_, ?_, ?_⟩ <;>
    simp [nodeRmdir, sharedName, dotName, dotdotName, maxName]

/-- C9: `Node.Lookup` returns `ENAMETOOLONG` for every name longer than 255
bytes, and `ENOENT` for every (not overlong) name absent from the node's
name cache, both as early returns before any metadata store call. -/
theorem lookup_long_or_missing_early (m : List (List Nat × Ino))
    (parent : Ino) (name : List Nat) :
    (name.length > maxName →
        nodeLookupCheck m parent name = .early .ENAMETOOLONG) ∧
      (name.length ≤ maxName → findIno m name = none →
        nodeLookupCheck m parent name = .early .ENOENT) := by
  constructor
  · intro h
    simp [nodeLookupCheck, h]
  · intro h hf
    simp [nodeLookupCheck, Nat.not_lt.2 h, hf]

set_option maxRecDepth 4096 in
/-- C9 witness: a 256-byte name is rejected overlong; a 1-byte name absent
from an empty cache misses with `ENOENT`. -/
theorem lookup_long_or_missing_early_witness :
    nodeLookupCheck [] 1 (List.replicate 256 120) = .early .ENAMETOOLONG ∧
      nodeLookupCheck [] 1 [120] = .early .ENOENT :=
  ⟨(lookup_long_or_missing_early [] 1 (List.replicate 256 120)).1 (by decide),
   (lookup_long_or_missing_early [] 1 [120]).2 (by decide) (by decide)⟩

/-- C10: children built by `Lookup` and `Create` alias the parent's name
cache object, a child built by `Mkdir` gets a fresh empty cache; hence a
`Readdir` on a lookup-built child inserts into the very cache the parent's
`Lookup` consults, and same-named entries inserted through two different
children sharing the cache overwrite one another (the later insert wins). -/
theorem lookup_create_share_cache_mkdir_fresh (h : CacheHeap) (p : NodeRef)
    (name : List Nat) (i1 i2 : Ino)
    (hp : p.cacheId < h.caches.length)
    (hn1 : ¬ name = dotName) (hn2 : ¬ name = dotdotName) :
    (lookupChildNode p).cacheId = p.cacheId ∧
      (createChildNode p).cacheId = p.cacheId ∧
      (mkdirChildNode h).1.cacheId ≠ p.cacheId ∧
      cacheAt (mkdirChildNode h).2 (mkdirChildNode h).1.cacheId = [] ∧
      findIno
          (cacheAt (readdirInsert h (lookupChildNode p) [(name, i1)])
            p.cacheId) name
        = some i1 ∧
      findIno
          (cacheAt
            (readdirInsert (readdirInsert h (lookupChildNode p) [(name, i1)])
              (createChildNode p) [(name, i2)])
            p.cacheId) name
        = some i2 := by
  have hnd : ¬ (name = dotName ∨ name = dotdotName) := by
    rintro (hc | hc)
    · exact hn1 hc
    · exact hn2 hc
  refine ⟨rfl, rfl, ?_, ?_, ?_, ?_⟩
  · exact fun hc => absurd (hc ▸ hp) (lt_irrefl _)
  · show (h.caches ++ [[]]).getD h.caches.length [] = []
    rw [List.getD, List.get?_concat_length]
    rfl
  · show findIno
        (cacheAt (readdirInsert h (lookupChildNode p) [(name, i1)])
          p.cacheId) name = some i1
    unfold readdirInsert cacheAt
    simp only [lookupChildNode, List.foldl_cons, List.foldl_nil, if_neg hnd]
    rw [list_getD_set_self _ _ _ _ (by simpa using hp)]
    simp [mapInsert, findIno]
  · unfold readdirInsert cacheAt
    simp only [lookupChildNode, createChildNode, List.foldl_cons,
      List.foldl_nil, if_neg hnd]
    rw [list_getD_set_self _ _ _ _ (by simpa using hp)]
    simp [mapInsert, findIno]

/-- C10 witness: a one-cell heap with the parent referencing cell 0. -/
theorem lookup_create_share_cache_mkdir_fresh_witness :
    (lookupChildNode ⟨0⟩).cacheId = 0 ∧
      (createChildNode ⟨0⟩).cacheId = 0 ∧
      (mkdirChildNode ⟨[[]]⟩).1.cacheId ≠ 0 ∧
      cacheAt (mkdirChildNode ⟨[[]]⟩).2 (mkdirChildNode ⟨[[]]⟩).1.cacheId
        = [] ∧
      findIno
          (cacheAt (readdirInsert ⟨[[]]⟩ (lookupChildNode ⟨0⟩) [([120], 5)])
            0) [120]
        = some 5 ∧
      findIno
          (cacheAt
            (readdirInsert
              (readdirInsert ⟨[[]]⟩ (lookupChildNode ⟨0⟩) [([120], 5)])
              (createChildNode ⟨0⟩) [([120], 7)])
            0) [120]
        = some 7 :=
  lookup_create_share_cache_mkdir_fresh ⟨[[]]⟩ ⟨0⟩ [120] 5 7
    (by decide) (by decide) (by decide)
